import Mathlib

set_option allowUnsafeReducibility true

attribute [semireducible] Rat.add Rat.sub Rat.mul Rat.inv Rat.div Rat.neg

/-!
# HealthHelper — verification of the scaling/aggregation/store engine

Shallow embedding of the core of the HealthHelper application
(`healthhelper/data.py` and the store-manipulating methods of
`healthhelper/interface.py`) and proofs about it.

Modelling conventions:
* Python numbers are modelled as exact rationals (`ℚ`).  `round(x, n)` is
  modelled as decimal round-half-to-even (the tie-breaking rule of Python's
  `round`), `int(x)` as truncation toward zero, and `float(s)` by a parser
  `pyFloat` for the decimal-numeral subset of Python's float grammar
  (optional sign, digits with an optional point, optional exponent);
  all numeric data handled by this application are such numerals.
* A CSV row is a `List Cell`.  A `Cell` is the in-memory Python value held
  in one field of a row: a string, an int, a float, the serving-options
  dict, or the two-element `[a, b]` list used for the cost pair and the
  amount/unit pair.  `Cell.i n` / `Cell.f q` stand for a Python `int` /
  `float`; when such a value is rendered, an int prints without a decimal
  point and a float prints with one — which is exactly the "rendered as an
  integer" distinction the specification makes.
* A fallible computation returns `Option`/a result type with an explicit
  constructor for an uncaught Python exception (`IndexError`, `KeyError`,
  `ValueError`, `ZeroDivisionError`, `TypeError` …).
* Files are modelled by `Option (List Row)`: `none` is a missing file,
  `some rows` its contents after CSV decoding.
-/

/-! ## Python numeric primitives -/

/-- Truncation toward zero: Python `int(x)` applied to a float. -/
def pyTrunc (q : ℚ) : ℤ :=
  if 0 ≤ q then ⌊q⌋ else -⌊-q⌋

/-- Round a rational to the nearest integer, ties to even
(the tie-breaking rule of Python's `round`). -/
def rndHalfEven (q : ℚ) : ℤ :=
  if q - ⌊q⌋ = (1 : ℚ) / 2 then
    (if ⌊q⌋ % 2 = 0 then ⌊q⌋ else ⌊q⌋ + 1)
  else
    round q

/-- Python `round(x, n)` on decimals: round to `n` decimal digits,
ties to even. -/
def pyRound (n : ℕ) (q : ℚ) : ℚ :=
  (rndHalfEven (q * 10 ^ n) : ℚ) / 10 ^ n

/-- `true` for the characters `'0'`–`'9'`. -/
def isDigit (c : Char) : Bool :=
  '0' ≤ c && c ≤ '9'

/-- Numeric value of a list of decimal digit characters. -/
def digitsToNat (l : List Char) : ℕ :=
  l.foldl (fun acc c => acc * 10 + (c.toNat - '0'.toNat)) 0

/-- Parse an unsigned run of digits; `none` if empty or non-digit. -/
def parseDigits (l : List Char) : Option ℕ :=
  if l ≠ [] && l.all isDigit then some (digitsToNat l) else none

/-- Parse the mantissa `digits [. digits]` / `. digits` of a float literal. -/
def parseMantissa (l : List Char) : Option ℚ :=
  match l.splitOn '.' with
  | [ip] => (parseDigits ip).map (fun n => (n : ℚ))
  | [ip, fp] =>
    if ip = [] && fp = [] then none
    else if ip.all isDigit && fp.all isDigit && (ip ≠ [] || fp ≠ []) then
      some ((digitsToNat ip : ℚ) + (digitsToNat fp : ℚ) / 10 ^ fp.length)
    else none
  | _ => none

/-- ASCII whitespace, as stripped by Python's `float(s)`/`int(s)`. -/
def isSpace (c : Char) : Bool :=
  c = ' ' || c = '\t' || c = '\n' || c = '\r' || c = '\x0b' || c = '\x0c'

/-- Strip leading and trailing whitespace from a character list. -/
def pyStrip (l : List Char) : List Char :=
  ((l.dropWhile isSpace).reverse.dropWhile isSpace).reverse

/-- Parse an optional sign; returns the sign as `1` or `-1` and the rest. -/
def parseSign (l : List Char) : ℚ × List Char :=
  match l with
  | '+' :: rest => (1, rest)
  | '-' :: rest => (-1, rest)
  | _ => (1, l)

/-- Parse a signed integer exponent part (after `e`/`E`). -/
def parseExp (l : List Char) : Option ℤ :=
  let (s, rest) := parseSign l
  (parseDigits rest).map (fun n => (if s = 1 then (n : ℤ) else -(n : ℤ)))

/-- Python `float(s)` on the decimal-numeral subset of its grammar:
optional surrounding whitespace, optional sign, digits with an optional
decimal point (at least one digit), optional `e`/`E` exponent.
`none` models the `ValueError` raised on any other input. -/
def pyFloat (s : String) : Option ℚ :=
  let (sign, body) := parseSign (pyStrip s.toList)
  match body.splitOn 'e' with
  | [m] =>
    match m.splitOn 'E' with
    | [m'] => (parseMantissa m').map (sign * ·)
    | [m', ex] => do
        let mv ← parseMantissa m'
        let e ← parseExp ex
        pure (sign * mv * 10 ^ (e : ℤ))
    | _ => none
  | [m, ex] => do
      let mv ← parseMantissa m
      let e ← parseExp ex
      pure (sign * mv * 10 ^ (e : ℤ))
  | _ => none

/-- Python `int(s)`: optional surrounding whitespace, optional sign,
decimal digits. -/
def pyIntOfString (s : String) : Option ℤ :=
  let (sign, body) := parseSign (pyStrip s.toList)
  (parseDigits body).map (fun n => (if sign = 1 then (n : ℤ) else -(n : ℤ)))

/-! ## Cells and rows -/

/-- One field of a row as the Python value held in memory: a string
(everything read from CSV), an int, a float, the serving-options dict,
or a two-element list `[a, b]`. -/
inductive Cell where
  | s (v : String)
  | i (n : ℤ)
  | f (q : ℚ)
  | dict (m : List (String × String))
  | pair (a b : Cell)
  deriving DecidableEq, Repr

/-- A CSV row in memory. -/
abbrev Row := List Cell

/-- Lexicographic comparison of character lists, by code point — Python's
`<` on `str` (and Lean's, but in executable form). -/
def charListLt : List Char → List Char → Bool
  | [], [] => false
  | [], _ :: _ => true
  | _ :: _, [] => false
  | a :: as, b :: bs =>
    if a < b then true
    else if b < a then false
    else charListLt as bs

/-- Python's `a < b` on strings. -/
def pyStrLt (a b : String) : Bool :=
  charListLt a.data b.data

/-- Python truthiness of a cell: `""`, `0`, `0.0` and `{}` are falsy;
a two-element list is always truthy. -/
def cellFalsy : Cell → Bool
  | .s v => v = ""
  | .i n => n = 0
  | .f q => q = 0
  | .dict m => m.isEmpty
  | .pair _ _ => false

/-- Python `float(cell)`: parses a string, converts a number, raises
`TypeError` (modelled `none`) on a dict or list. -/
def pyFloatCell : Cell → Option ℚ
  | .s v => pyFloat v
  | .i n => some (n : ℚ)
  | .f q => some q
  | .dict _ => none
  | .pair _ _ => none

/-- Python dict lookup on the literal `{k1: v1, ...}`: the last binding of
a key wins (as in a Python dict display). `none` models `KeyError`. -/
def dictLookup (m : List (String × String)) (k : String) : Option String :=
  (m.filter (fun p => p.1 = k)).getLast?.map Prod.snd

/-- Collapse a float to an int when its value is integral
(`if x == int(x): x = int(x)`), otherwise keep it as a float. -/
def render (q : ℚ) : Cell :=
  if (pyTrunc q : ℚ) = q then .i (pyTrunc q) else .f q

/-- Delete index `n` from a list (`del l[n]`); callers check the bound. -/
def delIdx (n : ℕ) (l : List α) : List α :=
  l.take n ++ l.drop (n + 1)

/-- Apply `f` to every element, failing if any application fails — the
shape of every loop in the source that can raise on one element. -/
def mapOpt (f : α → Option β) : List α → Option (List β)
  | [] => some []
  | x :: xs =>
    match f x, mapOpt f xs with
    | some y, some ys => some (y :: ys)
    | _, _ => none

/-! ## `data.sum_shared_values` -/

/-- Python `zip(*values_list)`: transpose, truncated to the shortest row. -/
def pyZip (ls : List (List α)) : List (List α) :=
  let n := ((ls.map List.length).min?).getD 0
  (List.range n).map (fun i => ls.filterMap (fun l => l.get? i))

/-- One summand of `sum_shared_values`: a falsy value (`if not val`) counts
as 0, anything else goes through `float(val)`. -/
def sumCell (c : Cell) : Option ℚ :=
  if cellFalsy c then some 0 else pyFloatCell c

/-- The running sum over one transposed column (`sum_ += float(val)`),
`none` on a `float()` failure. -/
def sumColGo (acc : ℚ) : List Cell → Option ℚ
  | [] => some acc
  | c :: cs =>
    match sumCell c with
    | some v => sumColGo (acc + v) cs
    | none => none

/-- Sum one transposed column as `float`s starting from `sum_ = 0`. -/
def sumCol (col : List Cell) : Option ℚ :=
  sumColGo 0 col

/-- `if int(x) == float(x): x = int(x)` followed by `round(x, 2)`:
the int collapse is tested on the *unrounded* value; an integral value is
rendered as an int, anything else as the float `round(x, 2)`.
Shared by `sum_shared_values` (the totals) and `calculate_entry_info`
(the `num_of_servings` cell). -/
def renderPre (q : ℚ) : Cell :=
  if (pyTrunc q : ℚ) = q then .i (pyTrunc q) else .f (pyRound 2 q)

/-- `data.sum_shared_values(values_list)`: per transposed position, sum the
values (falsy slots count 0), collapse to int when the sum is integral, and
round to 2 decimals. `none` models the `ValueError`/`TypeError` raised when
a non-falsy, non-numeric value is reached. -/
def sum_shared_values (values_list : List (List Cell)) : Option (List Cell) :=
  mapOpt (fun col => (sumCol col).map renderPre) (pyZip values_list)

/-! ## `data.calculate_entry_info` -/

/-- Result of `calculate_entry_info`: one of the three sentinel strings it
returns for bad amount input, an uncaught exception, or the list of
finalized entries. -/
inductive CalcResult where
  /-- the string `'no amount given (log add)'` -/
  | missingAdd
  /-- the string `'no amount given (log edit)'` -/
  | missingEdit
  /-- the string `'invalid amount'` -/
  | invalid
  /-- an uncaught exception (`KeyError`, `ValueError`, `IndexError`,
  `ZeroDivisionError`, or a `literal_eval` failure) -/
  | crash
  | ok (entries : List Row)
  deriving DecidableEq, Repr

/-- Scale one value of an entry: a falsy value is appended unchanged,
otherwise `round(float(val) * num_of_servings, 2)` collapsed to an int when
the *rounded* value is integral. `none` models the `ValueError`/`TypeError`
of `float(val)`. -/
def scaleCell (ns : ℚ) (c : Cell) : Option Cell :=
  if cellFalsy c then some c
  else (pyFloatCell c).map (fun v => render (pyRound 2 (v * ns)))

/-- Scale a list of values, propagating a conversion failure. -/
def scaleVals (ns : ℚ) (l : List Cell) : Option (List Cell) :=
  mapOpt (scaleCell ns) l

/-- The number of servings for one entry.  Unit `"Serving(s)"` takes the
amount itself; any other unit resolves through the entry's serving-size
dict (field 1) and divides.  `none` models, in order, a `literal_eval`
failure, a `KeyError` on an unknown unit, a `ValueError` on a non-numeric
serving size, and the unguarded `ZeroDivisionError`. -/
def numServings (e : Row) (amtVal : ℚ) (unit : String) : Option ℚ :=
  if unit = "Serving(s)" then some amtVal
  else
    match e.get? 1 with
    | some (.dict m) =>
      match dictLookup m unit with
      | none => none
      | some ss =>
        match pyFloat ss with
        | none => none
        | some sv => if sv = 0 then none else some (amtVal / sv)
    | _ => none

/-- Outcome of processing a single entry inside `calculate_entry_info`,
together with the state of the caller's row after that iteration
(the loop body mutates the row with `del entries_to_modify[entry_num][17]`). -/
inductive OneRes where
  | err (r : CalcResult) (eAfter : Row)
  | succ (edited : Row) (eAfter : Row)
  deriving DecidableEq, Repr

/-- The amount-validation prologue of `calculate_entry_info`'s loop body:
in tally mode a non-float amount is coerced to the int `0`, in strict mode
a blank amount yields the missing-amount string (add or edit flavour) and a
non-float amount the invalid-amount string.  On success it returns the
numeric value together with the cell stored in the `[amount, unit]` pair. -/
def amountStep (a : String) (tally edit : Bool) : Except CalcResult (ℚ × Cell) :=
  if tally then
    match pyFloat a with
    | none => .ok (0, .i 0)           -- non-float amounts have weight 0
    | some v => .ok (v, .s a)
  else if a = "" then
    .error (if edit then .missingEdit else .missingAdd)
  else
    match pyFloat a with
    | none => .error .invalid
    | some v => .ok (v, .s a)

/-- The body of `calculate_entry_info`'s loop for one entry. -/
def calcOne (e : Row) (a u : String) (tally edit : Bool) : OneRes :=
  match amountStep a tally edit with
  | .error r => .err r e
  | .ok (v, amtCell) =>
    match numServings e v u with
    | none => .err .crash e           -- raised before the `del`
    | some ns =>
      match e.head? with              -- entries_to_modify[entry_num][0]
      | none => .err .crash e
      | some name =>
        if 17 < e.length then
          let e' := delIdx 17 e
          match scaleVals ns (e'.drop 2) with
          | none => .err .crash e'
          | some scaled =>
            .succ (name :: .pair amtCell (.s u) :: renderPre ns :: scaled) e'
        else .err .crash e            -- `del e[17]` raises IndexError

/-- `data.calculate_entry_info(entries_to_modify, user_input_amounts,
tally, edit)`.  Returns the function's result together with the caller's
entry list as the call leaves it (the loop deletes index 17 from each row
it processes). -/
def calculate_entry_info :
    List Row → List (String × String) → Bool → Bool → CalcResult × List Row
  | [], _, _, _ => (.ok [], [])
  | e :: es, amts, tally, edit =>
    match amts with
    | [] => (.crash, e :: es)         -- IndexError on user_input_amounts
    | (a, u) :: arest =>
      match calcOne e a u tally edit with
      | .err r eAfter => (r, eAfter :: es)
      | .succ edited eAfter =>
        match calculate_entry_info es arest tally edit with
        | (.ok rest, esAfter) => (.ok (edited :: rest), eAfter :: esAfter)
        | (r, esAfter) => (r, eAfter :: esAfter)

/-! ## `data.get_entries` and `data.get_file_entry_names` -/

/-- The `entry_names` argument of `get_entries`: `None`, a list of names,
or — as one call site actually passes — a bare string. -/
inductive PyNames where
  | none
  | list (l : List String)
  | str (s : String)
  deriving DecidableEq, Repr

/-- Python truthiness of the `entry_names` argument. -/
def pyNamesTruthy : PyNames → Bool
  | .none => false
  | .list l => !l.isEmpty
  | .str s => s ≠ ""

/-- Python's `sub in s` on strings: contiguous-substring test. -/
def isSubstr (sub s : String) : Bool :=
  (List.range (s.length - sub.length + 1)).any
    (fun i => ((s.toList.drop i).take sub.length) = sub.toList)

/-- Iterating `entry_names` with `for name in entry_names`: a list yields
its items, a string yields its characters as 1-character strings. -/
def namesIter : PyNames → List String
  | .none => []
  | .list l => l
  | .str s => s.toList.map (fun c => String.mk [c])

/-- Python's `row[0] in entry_names`: membership for a list, substring
test for a string (`none` models the `TypeError` when `row[0]` is not a
string and `entry_names` is). -/
def cellInNames (c : Cell) (names : PyNames) : Option Bool :=
  match names with
  | .none => none
  | .list l =>
    match c with
    | .s v => some (l.contains v)
    | _ => some false
  | .str s =>
    match c with
    | .s v => some (isSubstr v s)
    | _ => none

/-- Result of `get_entries`. -/
inductive GetResult where
  /-- the string `'file not found'` returned when the path does not exist -/
  | notFound
  | entries (rows : List Row)
  /-- an uncaught exception (`IndexError` on an empty row, `TypeError`) -/
  | pyError
  deriving DecidableEq, Repr

/-- The inner loop of the `match=True` branch: the rows whose first field
equals `n`, in store order; `none` models `IndexError` on an empty row. -/
def matchRows (reader : List Row) (n : String) : Option (List Row) :=
  match reader with
  | [] => some []
  | r :: rs =>
    match r.head? with
    | Option.none => Option.none
    | some c => (matchRows rs n).map (fun rest => if c = Cell.s n then r :: rest else rest)

/-- The `match=False` branch: the rows whose first field is *not* in
`entry_names`; `none` models an exception (empty row, or the `TypeError`
of `in` on a string with a non-string field). -/
def nonmatchRows (reader : List Row) (names : PyNames) : Option (List Row) :=
  match reader with
  | [] => some []
  | r :: rs =>
    match r.head? with
    | Option.none => Option.none
    | some c =>
      match cellInNames c names with
      | Option.none => Option.none
      | some b => (nonmatchRows rs names).map (fun rest => if b then rest else r :: rest)

/-- `data.get_entries(path, entry_names, match, return_all)` over the
decoded file contents (`Option.none` = the path does not exist). -/
def get_entries (file : Option (List Row)) (entry_names : PyNames)
    (mtch return_all : Bool) : GetResult :=
  match file with
  | Option.none => .notFound
  | some reader =>
    if return_all then .entries reader
    else if !pyNamesTruthy entry_names then .entries []
    else if mtch then
      match mapOpt (matchRows reader) (namesIter entry_names) with
      | Option.none => .pyError
      | some ls => .entries ls.flatten
    else
      match nonmatchRows reader entry_names with
      | Option.none => .pyError
      | some l => .entries l

/-- `data.get_file_entry_names(path)`: the first field of every row
(`none` models `IndexError` on an empty row; the function opens the path
unconditionally, so its callers check existence first). -/
def get_file_entry_names (reader : List Row) : Option (List Cell) :=
  mapOpt List.head? reader

/-! ## `EditLogWin.add_to_log` -/

/-- The per-date ledger storage: whether the date's directory exists and
the log file's decoded contents (`Option.none` = no file). -/
structure LogFS where
  dirExists : Bool
  file : Option (List Row)
  deriving DecidableEq, Repr

/-- Outcome of `add_to_log`, keyed by the `MessageWin` message it shows
(or `ok` for the successful write). -/
inductive AddResult where
  /-- `'no log entries selected to add'` -/
  | noneSelected
  /-- `'duplicate log entry'` with the offending name -/
  | duplicate (name : String)
  /-- `'no amount given (log add)'` -/
  | missingAmount
  /-- `'invalid amount'` -/
  | invalidAmount
  /-- an uncaught exception -/
  | pyError
  | ok
  deriving DecidableEq, Repr

/-- The duplicate scan of `add_to_log`: the first selected name already
present among the file's entry names. -/
def firstDuplicate (names : List String) (fileNames : List Cell) : Option String :=
  names.find? (fun n => fileNames.contains (Cell.s n))

/-- `EditLogWin.add_to_log`: `st` is the date's ledger storage, `fd` the
food dictionary file, `newNames` the checked entry names from the edit
table and `amounts` their `[amount, unit]` inputs.  Returns the outcome
and the ledger storage after the call. -/
def add_to_log (st : LogFS) (fd : Option (List Row)) (newNames : List String)
    (amounts : List (String × String)) : AddResult × LogFS :=
  if newNames.isEmpty then (.noneSelected, st)
  else
    let dupCheck : Option (Option String) :=
      match st.file with
      | some rows => (get_file_entry_names rows).map (firstDuplicate newNames)
      | Option.none => some Option.none   -- no file: the scan is skipped
    match dupCheck with
    | Option.none => (.pyError, st)
    | some (some n) => (.duplicate n, st)
    | some Option.none =>
      match get_entries fd (.list newNames) true false with
      | .pyError => (.pyError, st)
      | .notFound =>
        -- `calculate_entry_info` is then called on the string
        -- 'file not found'; its first iteration validates `amounts[0]`
        -- and, if that passes, crashes indexing into a character.
        match amounts.head? with
        | Option.none => (.pyError, st)
        | some (a, _) =>
          if a = "" then (.missingAmount, st)
          else if (pyFloat a).isNone then (.invalidAmount, st)
          else (.pyError, st)
      | .entries es =>
        match (calculate_entry_info es amounts false false).1 with
        | .missingAdd => (.missingAmount, st)
        | .invalid => (.invalidAmount, st)
        | .missingEdit => (.pyError, st)  -- unreachable with edit=False
        | .crash => (.pyError, st)
        | .ok rows => (.ok, { dirExists := true, file := some (st.file.getD [] ++ rows) })

/-! ## `EditFoodDictWin.add_or_edit_entry` -/

/-- Outcome of `add_or_edit_entry`, keyed by the message it shows. -/
inductive FDResult where
  /-- `'no name'` -/
  | noName
  /-- `'duplicate fd entry'` -/
  | duplicate
  /-- `'invalid serving size amount'` -/
  | invalidServ
  /-- `'blank serving'` -/
  | blankServ
  /-- `'invalid fd entry info'` -/
  | invalidInfo
  /-- `'missing cost info'` -/
  | missingCost
  /-- an uncaught exception -/
  | pyError
  | ok
  deriving DecidableEq, Repr

/-- Truthiness of `self.edit_entry_name` (`None` or a string). -/
def editTruthy : Option String → Bool
  | some s => s ≠ ""
  | Option.none => false

/-- The duplicate-name scan of `add_or_edit_entry`: `some true` if some
row's first field equals the submitted name and it is not the self-edit
case, `some false` if the scan passes, `none` on `IndexError`. -/
def dupScan (reader : List Row) (entry_name : String) (edit_name : Option String) :
    Option Bool :=
  match reader with
  | [] => some false
  | r :: rs =>
    match r.head? with
    | Option.none => Option.none
    | some c =>
      if c = Cell.s entry_name then
        if editTruthy edit_name && decide (entry_name = edit_name.getD "") then
          dupScan rs entry_name edit_name
        else some true
      else dupScan rs entry_name edit_name

/-- Python dict assignment `m[k] = v`: replaces the value of an existing
key in place, otherwise appends the binding. -/
def dictAssign (m : List (String × String)) (k v : String) : List (String × String) :=
  if m.any (fun p => p.1 = k) then m.map (fun p => if p.1 = k then (k, v) else p)
  else m ++ [(k, v)]

/-- The serving-size loop: blank amounts are skipped, a non-float amount
is the invalid-serving error, and each kept row does
`serv_size_options[serv_unit] = serv_amount`. -/
def buildServOptions :
    List (String × String) → List (String × String) →
      Except FDResult (List (String × String))
  | [], acc => .ok acc
  | (amt, unit) :: rest, acc =>
    if amt = "" then buildServOptions rest acc
    else if (pyFloat amt).isNone then .error .invalidServ
    else buildServOptions rest (dictAssign acc unit amt)

/-- The nutrient validation loop over `entry[2:]`: every non-empty value
must parse as a float. -/
def validInfo (nutrients : List String) : Bool :=
  nutrients.all (fun v => v = "" || (pyFloat v).isSome)

/-- `n` rendered in decimal and left-padded with zeros to `k` digits. -/
def decDigits (n : ℕ) (k : ℕ) : String :=
  let s := toString n
  String.mk (List.replicate (k - s.length) '0') ++ s

/-- Python's `f"{x:.2f}"` on an exact-decimal float. -/
def pyFormat2f (q : ℚ) : String :=
  let sign := if q < 0 then "-" else ""
  let n := (rndHalfEven (|q| * 100)).toNat
  sign ++ toString (n / 100) ++ "." ++ decDigits (n % 100) 2

/-- Python's `str(x)` on an exact-decimal float: the shortest decimal
form, always with at least one fractional digit. -/
def pyStrFloat (q : ℚ) : String :=
  let k := max (((List.range 30).find? (fun k => (10 ^ k) % q.den = 0)).getD 0) 1
  let n := (|q| * (10 ^ k : ℕ)).num.toNat
  let sign := if q < 0 then "-" else ""
  sign ++ toString (n / 10 ^ k) ++ "." ++ decDigits (n % 10 ^ k) k

/-- The cost-field processing of `add_or_edit_entry`: both fields blank
appends two empty strings; exactly one blank is the missing-cost error;
otherwise both must parse, the servings-per-container collapses to an int
when integral, and the entry gets the formatted cost pair plus
`str(round(total_cost / serv_per_container, 3))`.  A zero
servings-per-container raises `ZeroDivisionError`. -/
def costCells (tc spc : String) : Except FDResult (List Cell) :=
  if (tc ≠ "" && spc = "") || (tc = "" && spc ≠ "") then .error .missingCost
  else if tc = "" then .ok [.s "", .s ""]
  else
    match pyFloat tc, pyFloat spc with
    | some tcv, some spcv =>
      if spcv = 0 then .error .pyError
      else
        let spcStr := if (pyTrunc spcv : ℚ) = spcv then toString (pyTrunc spcv)
                      else pyStrFloat spcv
        .ok [.pair (.s (pyFormat2f tcv)) (.s spcStr),
             .s (pyStrFloat (pyRound 3 (tcv / spcv)))]
    | _, _ => .error .invalidInfo

/-- Sort key for a catalog row: its first field when that is a string.
Python's `entries_to_write.sort()` compares rows as lists; since the rows'
first fields are pairwise distinct strings (duplicate names are rejected
above), that comparison is decided by the first field. -/
def rowKey (r : Row) : String :=
  match r.head? with
  | some (.s v) => v
  | _ => ""

/-- Stable insertion into a key-sorted list (after equal keys). -/
def insSorted (r : Row) : List Row → List Row
  | [] => [r]
  | x :: xs => if pyStrLt (rowKey r) (rowKey x) then r :: x :: xs else x :: insSorted r xs

/-- Stable sort of catalog rows by `rowKey` (Python `list.sort()`). -/
def sortRows (l : List Row) : List Row :=
  l.foldl (fun acc r => insSorted r acc) []

/-- `EditFoodDictWin.add_or_edit_entry`: `fd` is the food-dictionary file,
`entry_name` the name field, `servInputs` the three serving-size
`(amount, unit)` input rows, `nutrients` the 15 nutrient fields,
`total_cost`/`spc` the cost fields and `edit_name` is
`self.edit_entry_name`.  Returns the outcome and the food-dictionary file
after the call. -/
def add_or_edit_entry (fd : Option (List Row)) (entry_name : String)
    (servInputs : List (String × String)) (nutrients : List String)
    (total_cost spc : String) (edit_name : Option String) :
    FDResult × Option (List Row) :=
  if entry_name = "" then (.noName, fd)
  else
    let dup : Option Bool :=
      match fd with
      | some reader => dupScan reader entry_name edit_name
      | Option.none => some false
    match dup with
    | Option.none => (.pyError, fd)
    | some true => (.duplicate, fd)
    | some false =>
      match buildServOptions servInputs [] with
      | .error e => (e, fd)
      | .ok m =>
        if m.isEmpty then (.blankServ, fd)
        else if !validInfo nutrients then (.invalidInfo, fd)
        else
          match costCells total_cost spc with
          | .error e => (e, fd)
          | .ok costPart =>
            let entry : Row := .s entry_name :: .dict m :: (nutrients.map .s ++ costPart)
            match
              (if editTruthy edit_name then
                get_entries fd (.str (edit_name.getD "")) false false
              else get_entries fd .none true true) with
            | .pyError => (.pyError, fd)
            | .notFound => (.ok, some [entry])
            | .entries l => (.ok, some (sortRows (l ++ [entry])))

/-! ## `LogsWin.goto_prev_log` / `LogsWin.goto_next_log` -/

/-- The root of the per-date ledger files (`files/log files`); the
original application runs on Windows, where `os.path.join` uses `\\` and
the navigation code splits paths on `'\\'`. -/
def LOG_FILES_DIR : String := "files\\log files"

/-- `date.strftime('%B')`: the English month name. -/
def monthName (m : ℕ) : String :=
  (["January", "February", "March", "April", "May", "June", "July",
    "August", "September", "October", "November", "December"].get? (m - 1)).getD ""

/-- Zero-padded two-digit rendering (`strftime('%m')` / `'%d'`). -/
def pad2 (n : ℕ) : String :=
  if n < 10 then "0" ++ toString n else toString n

/-- The ledger path for a date
(`LOG_FILES_DIR/year/MM - MonthName/DD.csv`). -/
def log_file_path (y m d : ℕ) : String :=
  LOG_FILES_DIR ++ "\\" ++ toString y ++ "\\" ++ pad2 m ++ " - " ++ monthName m
    ++ "\\" ++ pad2 d ++ ".csv"

/-- `bisect.insort(l, x)` on a sorted list: insert after equal elements. -/
def insort (l : List String) (x : String) : List String :=
  match l with
  | [] => [x]
  | h :: t => if pyStrLt x h then x :: h :: t else h :: insort t x

/-- Parse a ledger path back into `(year, month, day)` the way the
navigation code does: split on `'\\'`, `int(parts[-3])`,
`int(parts[-2][0:2])`, `int(parts[-1][0:2])`.  `none` models the
`IndexError`/`ValueError` on a malformed path. -/
def parseLogDate (p : String) : Option (ℤ × ℤ × ℤ) := do
  let rev := (p.toList.splitOn '\\').reverse
  let ys ← rev.get? 2
  let ms ← rev.get? 1
  let ds ← rev.get? 0
  let y ← pyIntOfString (String.mk ys)
  let m ← pyIntOfString (String.mk (ms.take 2))
  let d ← pyIntOfString (String.mk (ds.take 2))
  pure (y, m, d)

/-- Outcome of the prev/next navigation. -/
inductive NavResult where
  /-- the `'no previous file'` / `'no next file'` message -/
  | noFile
  /-- an uncaught exception while parsing the neighbouring path -/
  | err
  /-- navigate to the log of this `(year, month, day)` -/
  | date (d : ℤ × ℤ × ℤ)
  deriving DecidableEq, Repr

/-- The path-level core of `goto_next_log`: insort the current path if no
file exists for it (`os.path.exists` over the walked set is membership),
then take the entry after its index. -/
def nextPath (existing : List String) (query : String) : Option String :=
  let l := if existing.contains query then existing else insort existing query
  l.get? (l.indexOf query + 1)

/-- The path-level core of `goto_prev_log`: the entry before the index,
`none` when the index is 0. -/
def prevPath (existing : List String) (query : String) : Option String :=
  let l := if existing.contains query then existing else insort existing query
  let i := l.indexOf query
  if i = 0 then Option.none else l.get? (i - 1)

/-- `LogsWin.goto_next_log`: `existing` is the walked list of ledger
paths, `query` the current date's `log_file_path`. -/
def goto_next_log (existing : List String) (query : String) : NavResult :=
  match nextPath existing query with
  | Option.none => .noFile
  | some p =>
    match parseLogDate p with
    | Option.none => .err
    | some d => .date d

/-- `LogsWin.goto_prev_log`. -/
def goto_prev_log (existing : List String) (query : String) : NavResult :=
  match prevPath existing query with
  | Option.none => .noFile
  | some p =>
    match parseLogDate p with
    | Option.none => .err
    | some d => .date d

/-! ## Concrete rows used by the testable properties -/

/-- The "cereal" catalog entry of the specification's testable properties:
serving option `g: 60`, nutrients `[200, 1.5, 0, 0, 0, 0, 0, 10, 48, 8, 2,
6, 0, 0, 7]`, cost pair `(2.00, 8)` and derived unit cost `0.25`. -/
def cerealRow : Row :=
  [.s "cereal", .dict [("g", "60")], .s "200", .s "1.5", .s "0", .s "0", .s "0",
   .s "0", .s "0", .s "10", .s "48", .s "8", .s "2", .s "6", .s "0", .s "0",
   .s "7", .pair (.s "2.00") (.s "8"), .s "0.25"]

/-- The scaled ledger row the specification expects for "cereal" at
amount `"1.5"`, unit `"Serving(s)"`. -/
def cerealScaled : Row :=
  [.s "cereal", .pair (.s "1.5") (.s "Serving(s)"), .f (3 / 2), .i 300,
   .f (9 / 4), .i 0, .i 0, .i 0, .i 0, .i 0, .i 15, .i 72, .i 12, .i 3, .i 9,
   .i 0, .i 0, .f (21 / 2), .f (19 / 50)]

/-- A minimal catalog entry named "real": one serving option and every
nutrient/cost slot absent. -/
def realRow : Row :=
  [.s "real", .dict [("g", "1")], .s "", .s "", .s "", .s "", .s "", .s "",
   .s "", .s "", .s "", .s "", .s "", .s "", .s "", .s "", .s "", .s "", .s ""]

/-- The catalog row produced by re-submitting "cereal" through the edit
form with serving option `g: 60` and every nutrient/cost field blank. -/
def editedCerealRow : Row :=
  [.s "cereal", .dict [("g", "60")], .s "", .s "", .s "", .s "", .s "", .s "",
   .s "", .s "", .s "", .s "", .s "", .s "", .s "", .s "", .s "", .s "", .s ""]

/-- The value a row contributes at position `i` when summing: the numeric
value of the cell, absent (or missing) slots counting as 0. -/
def colVal (r : List Cell) (i : ℕ) : ℚ :=
  ((r.get? i).bind sumCell).getD 0

/-- The specification's column sum: "for each position, treat absent as 0,
sum across rows as decimals". -/
def colSumSpec (rows : List (List Cell)) (i : ℕ) : ℚ :=
  (rows.map (fun r => colVal r i)).sum

/-- The specification's upsert result (claim C8's reading): remove exactly
the row named `previous_name`, insert the new entry, re-sort by name. -/
def upsertSpec (rows : List Row) (entry : Row) (previous_name : String) : List Row :=
  sortRows ((rows.filter (fun r => !(rowKey r = previous_name))) ++ [entry])

/-- A catalog entry that passes `add_or_edit_entry`'s validation with a
serving size of `"0"` grams and every other slot blank. -/
def zeroServRow : Row :=
  [.s "zeroed", .dict [("g", "0")], .s "", .s "", .s "", .s "", .s "", .s "",
   .s "", .s "", .s "", .s "", .s "", .s "", .s "", .s "", .s "", .s "", .s ""]

section Sanity

example : pyFloat "1.5" = some (3 / 2) := by decide
example : pyFloat "" = none := by decide
example : pyFloat "." = none := by decide
example : pyFloat "+" = none := by decide
example : pyFloat "-2.5e1" = some (-25) := by decide
example : pyFloat " 60 " = some 60 := by decide
example : pyRound 2 (3 / 8) = 19 / 50 := by decide
example : pyRound 2 (1 / 8) = 3 / 25 := by decide
example : pyTrunc (-3 / 2) = -1 := by decide
example : rndHalfEven (5 / 2) = 2 := by decide
example : rndHalfEven (7 / 2) = 4 := by decide
example : sum_shared_values [[.s "1", .s "2", .s "3"], [.s "4", .s "5", .s "6"],
    [.s "7", .s "8", .s "9"]] = some [.i 12, .i 15, .i 18] := by decide
example : sum_shared_values [] = some [] := by decide
example : sum_shared_values [[.s "2.999"]] = some [.f 3] := by decide

example : calculate_entry_info [cerealRow] [("1.5", "Serving(s)")] false false
    = (.ok [cerealScaled], [delIdx 17 cerealRow]) := by decide

example : calculate_entry_info [cerealRow] [("", "Serving(s)")] false false
    = (.missingAdd, [cerealRow]) := by decide

example : calculate_entry_info [cerealRow] [("", "Serving(s)")] true false
    = (.ok [[.s "cereal", .pair (.i 0) (.s "Serving(s)"), .i 0, .i 0, .i 0,
        .i 0, .i 0, .i 0, .i 0, .i 0, .i 0, .i 0, .i 0, .i 0, .i 0, .i 0,
        .i 0, .i 0, .i 0]], [delIdx 17 cerealRow]) := by decide

example : (calculate_entry_info [cerealRow] [(".", "Serving(s)")] false true).1
    = .invalid := by decide

example : nextPath [log_file_path 2020 6 30, log_file_path 2020 7 2]
    (log_file_path 2020 7 1) = some (log_file_path 2020 7 2) := by decide

example : goto_next_log [log_file_path 2020 6 30, log_file_path 2020 7 2]
    (log_file_path 2020 7 1) = .date (2020, 7, 2) := by decide

example : goto_next_log [log_file_path 2020 6 30, log_file_path 2020 7 2]
    (log_file_path 2020 7 2) = .noFile := by decide

example : goto_prev_log [log_file_path 2020 6 30, log_file_path 2020 7 2]
    (log_file_path 2020 7 1) = .date (2020, 6, 30) := by decide

example :
    add_or_edit_entry (some [cerealRow, realRow]) "cereal" [("60", "g")]
      (List.replicate 15 "") "" "" (some "cereal")
    = (.ok, some [[.s "cereal", .dict [("g", "60")], .s "", .s "", .s "",
        .s "", .s "", .s "", .s "", .s "", .s "", .s "", .s "", .s "", .s "",
        .s "", .s "", .s "", .s ""]]) := by decide

example :
    (add_or_edit_entry Option.none "zeroed" [("0", "g")] (List.replicate 15 "")
      "" "" Option.none).1 = .ok := by decide

example :
    (calculate_entry_info
      [[.s "zeroed", .dict [("g", "0")], .s "", .s "", .s "", .s "", .s "",
        .s "", .s "", .s "", .s "", .s "", .s "", .s "", .s "", .s "", .s "",
        .s "", .s ""]] [("1", "g")] false false).1 = .crash := by decide

example :
    add_to_log ⟨true, some [[.s "cereal"]]⟩ (some [cerealRow]) ["cereal"]
      [("1", "Serving(s)")] = (.duplicate "cereal", ⟨true, some [[.s "cereal"]]⟩) := by
  decide

example :
    add_to_log ⟨false, Option.none⟩ (some [cerealRow]) ["cereal"]
      [("1.5", "Serving(s)")] = (.ok, ⟨true, some [cerealScaled]⟩) := by decide

example : get_entries Option.none (.list ["a"]) true false = .notFound := by decide
example : get_entries (some [cerealRow]) (.list []) false false = .entries [] := by decide
example : get_entries (some [cerealRow]) PyNames.none true false = .entries [] := by decide

end Sanity

/-! ## Proof toolkit -/

theorem mapOpt_some (f : α → Option β) (l : List α) (h : ∀ x ∈ l, (f x).isSome) :
    ∃ out, mapOpt f l = some out ∧ out.length = l.length ∧
      ∀ i, out.get? i = (l.get? i).bind f := by
  induction l with
  | nil => exact ⟨[], rfl, rfl, fun i => by cases i <;> rfl⟩
  | cons x xs ih =>
    obtain ⟨y, hy⟩ := Option.isSome_iff_exists.mp (h x (List.mem_cons_self x xs))
    obtain ⟨out, hout, hlen, hget⟩ := ih (fun a ha => h a (List.mem_cons_of_mem _ ha))
    refine ⟨y :: out, ?_, by simp [hlen], ?_⟩
    · simp [mapOpt, hy, hout]
    · intro i
      cases i with
      | zero => simp [hy]
      | succ n => simpa using hget n

theorem sumColGo_some (col : List Cell) (h : ∀ c ∈ col, (sumCell c).isSome) :
    ∀ acc, sumColGo acc col
      = some (acc + (col.map (fun c => (sumCell c).getD 0)).sum) := by
  induction col with
  | nil => intro acc; simp [sumColGo]
  | cons c cs ih =>
    intro acc
    obtain ⟨v, hv⟩ := Option.isSome_iff_exists.mp (h c (List.mem_cons_self c cs))
    have hstep : sumColGo acc (c :: cs) = sumColGo (acc + v) cs := by
      simp [sumColGo, hv]
    rw [hstep, ih (fun a ha => h a (List.mem_cons_of_mem _ ha))]
    simp [hv, add_assoc]

theorem min?_const (l : List ℕ) (w : ℕ) (hne : l ≠ []) (h : ∀ x ∈ l, x = w) :
    l.min? = some w := by
  induction l with
  | nil => exact absurd rfl hne
  | cons x t ih =>
    have hx := h x (List.mem_cons_self x t)
    cases t with
    | nil => simp [List.min?, hx]
    | cons y t' =>
      have ht : (y :: t').min? = some w :=
        ih (by simp) (fun a ha => h a (List.mem_cons_of_mem _ ha))
      rw [List.min?_cons, ht]
      simp [hx]

theorem pyZip_props (ls : List (List Cell)) (w : ℕ) (hne : ls ≠ [])
    (hw : ∀ l ∈ ls, l.length = w) :
    (pyZip ls).length = w
    ∧ ∀ i, i < w → (pyZip ls).get? i = some (ls.filterMap (fun l => l.get? i)) := by
  have hmap : ls.map List.length ≠ [] := by
    simpa using hne
  have hmin : (ls.map List.length).min? = some w := by
    refine min?_const _ w hmap ?_
    intro x hx
    obtain ⟨l, hl, rfl⟩ := List.mem_map.mp hx
    exact hw l hl
  constructor
  · simp [pyZip, hmin]
  · intro i hi
    simp only [pyZip, hmin, Option.getD_some, List.get?_eq_getElem?, List.getElem?_map]
    rw [List.getElem?_range hi]
    rfl

theorem filterMap_col_map (rows : List (List Cell)) (i : ℕ)
    (h : ∀ r ∈ rows, (r.get? i).isSome) :
    (rows.filterMap (fun l => l.get? i)).map (fun c => (sumCell c).getD 0)
      = rows.map (fun r => colVal r i) := by
  induction rows with
  | nil => rfl
  | cons r rs ih =>
    obtain ⟨c, hc⟩ := Option.isSome_iff_exists.mp (h r (List.mem_cons_self r rs))
    have hc' : r[i]? = some c := by simpa using hc
    have := ih (fun a ha => h a (List.mem_cons_of_mem _ ha))
    simp only [List.filterMap_cons]
    rw [hc]
    simp only [List.map_cons]
    rw [this]
    congr 1
    unfold colVal
    rw [hc]
    rfl

/-- **C4** (counterexample): the claim says a summed slot is "rendered as
an integer exactly when the rounded value has no fractional part".  For
the single row `["2.999"]` the column sum is `2.999`, its 2-decimal
rounding is the integral value `3`, yet `sum_shared_values` renders the
slot as the float `3.0` (`Cell.f 3`) and not as an integer — because the
code collapses to `int` *before* rounding, not after. -/
theorem claim_C4_counterexample :
    sum_shared_values [[Cell.s "2.999"]] = some [Cell.f 3]
    ∧ pyRound 2 (2999 / 1000) = 3
    ∧ ∀ n : ℤ, Cell.f 3 ≠ Cell.i n := by
  refine ⟨by decide, by decide, ?_⟩
  intro n h
  exact Cell.noConfusion h

/-- **C4** (amended): summing zero rows yields `some []` (an empty result,
not an error), and for a nonempty list of rows of equal width `w` whose
cells all convert (absent slots count as 0), the result has width `w` and
position `i` holds the decimal column sum, rendered as an integer exactly
when the *unrounded* sum is integral and otherwise as the float
`round(sum, 2)` (`renderPre`). -/
theorem claim_C4_sum :
    sum_shared_values [] = some []
    ∧ ∀ (rows : List (List Cell)) (w : ℕ),
        rows ≠ [] →
        (∀ r ∈ rows, r.length = w) →
        (∀ r ∈ rows, ∀ c ∈ r, (sumCell c).isSome) →
        ∃ ts, sum_shared_values rows = some ts ∧ ts.length = w
          ∧ ∀ i, i < w → ts.get? i = some (renderPre (colSumSpec rows i)) := by
  constructor
  · rfl
  · intro rows w hne hw hcells
    obtain ⟨hlen, hget⟩ := pyZip_props rows w hne hw
    have hcolcells : ∀ i, ∀ c ∈ rows.filterMap (fun l => l.get? i), (sumCell c).isSome := by
      intro i c hc
      obtain ⟨r, hr, hrc⟩ := List.mem_filterMap.mp hc
      exact hcells r hr c (List.get?_mem hrc)
    have hall : ∀ col ∈ pyZip rows, ((sumCol col).map renderPre).isSome := by
      intro col hcol
      have : ∃ i, col = rows.filterMap (fun l => l.get? i) := by
        simp only [pyZip] at hcol
        obtain ⟨i, _, rfl⟩ := List.mem_map.mp hcol
        exact ⟨i, rfl⟩
      obtain ⟨i, rfl⟩ := this
      rw [sumCol, sumColGo_some _ (hcolcells i) 0]
      rfl
    obtain ⟨ts, hts, htslen, htsget⟩ := mapOpt_some _ _ hall
    refine ⟨ts, hts, by rw [htslen, hlen], ?_⟩
    intro i hi
    have hrows_i : ∀ r ∈ rows, (r.get? i).isSome := by
      intro r hr
      rw [List.get?_eq_get (by rw [hw r hr]; exact hi)]
      rfl
    rw [htsget i, hget i hi]
    show ((sumCol (rows.filterMap fun l => l.get? i)).map renderPre) = _
    rw [sumCol, sumColGo_some _ (hcolcells i) 0]
    rw [filterMap_col_map rows i hrows_i]
    simp [colSumSpec]

/-- **C7**: for every read through `get_entries` — any `entry_names`, any
`match` flag, any `return_all` flag — a missing storage file yields the
distinct `'file not found'` result (`GetResult.notFound`), which is not
the empty-entry-list result, so a missing store and a store with zero
entries are always distinguishable (an existing empty store returns
`entries []`). -/
theorem claim_C7_not_found :
    (∀ (entry_names : PyNames) (mtch return_all : Bool),
      get_entries Option.none entry_names mtch return_all = .notFound)
    ∧ (∀ rows : List Row, GetResult.notFound ≠ .entries rows)
    ∧ get_entries (some []) (.list ["cereal"]) true false = .entries [] := by
  refine ⟨fun _ _ _ => rfl, ?_, by decide⟩
  intro rows h
  exact GetResult.noConfusion h

/-- **C9**: on an existing storage file, `get_entries` with
`return_all = False` and a falsy `entry_names` (`None` or the empty list)
returns the empty list for either value of the `match` flag — in
particular `match=False` with no names yields no rows, not the whole
store. -/
theorem claim_C9_empty_names :
    ∀ (rows : List Row) (mtch : Bool),
      get_entries (some rows) PyNames.none mtch false = .entries []
      ∧ get_entries (some rows) (.list []) mtch false = .entries [] := by
  intro rows mtch
  exact ⟨rfl, rfl⟩

theorem amountStep_error_ne_ok (a : String) (t ed : Bool) (r : CalcResult)
    (h : amountStep a t ed = .error r) : ∀ l, r ≠ .ok l := by
  unfold amountStep at h
  by_cases ht : t
  · simp only [ht, if_true] at h
    cases hpf : pyFloat a <;> simp [hpf] at h
  · simp only [ht, if_false, Bool.false_eq_true] at h
    by_cases ha : a = ""
    · simp only [ha, if_true] at h
      cases h
      cases ed <;> simp
    · simp only [ha, if_false] at h
      cases hpf : pyFloat a <;> simp [hpf] at h
      cases h
      simp

theorem calcOne_cases (e : Row) (a u : String) (t ed : Bool) :
    (∃ r eA, calcOne e a u t ed = .err r eA ∧ ∀ l, r ≠ .ok l)
    ∨ (∃ out, calcOne e a u t ed = .succ out (delIdx 17 e)) := by
  cases hAmt : amountStep a t ed with
  | error r =>
    exact Or.inl ⟨r, e, by simp only [calcOne, hAmt], amountStep_error_ne_ok a t ed r hAmt⟩
  | ok p =>
    obtain ⟨v, amtCell⟩ := p
    simp only [calcOne, hAmt]
    cases hNs : numServings e v u with
    | none => exact Or.inl ⟨.crash, e, rfl, by simp⟩
    | some ns =>
      cases hHd : e.head? with
      | none => exact Or.inl ⟨.crash, e, rfl, by simp⟩
      | some name =>
        by_cases hLen : 17 < e.length
        · simp only [if_pos hLen]
          cases hSc : scaleVals ns ((delIdx 17 e).drop 2) with
          | none => exact Or.inl ⟨.crash, delIdx 17 e, rfl, by simp⟩
          | some scaled => exact Or.inr ⟨_, rfl⟩
        · simp only [if_neg hLen]
          exact Or.inl ⟨.crash, e, rfl, by simp⟩

/-- **C2** (counterexample): `calculate_entry_info` is not pure — after the
sample scaling call, the caller's catalog row list holds the cereal row
with its index-17 `['total cost', 'servings']` field deleted
(`del entries_to_modify[entry_num][17]`), which differs from the row that
was passed in. -/
theorem claim_C2_counterexample :
    (calculate_entry_info [cerealRow] [("1.5", "Serving(s)")] false false).2
      = [delIdx 17 cerealRow]
    ∧ delIdx 17 cerealRow ≠ cerealRow := by
  decide

/-- **C2** (amended): the scaled result rows are newly constructed values,
but the scaler *mutates* the caller-owned rows: on every successful call
the caller's entry list is left exactly as the original rows with index 17
deleted from each. -/
theorem claim_C2_mutates :
    ∀ (entries : List Row) (amounts : List (String × String)) (t ed : Bool)
      (out : List Row),
      (calculate_entry_info entries amounts t ed).1 = .ok out →
      (calculate_entry_info entries amounts t ed).2 = entries.map (delIdx 17) := by
  intro entries
  induction entries with
  | nil => intro amounts t ed out _; rfl
  | cons e es ih =>
    intro amounts t ed out h
    cases amounts with
    | nil => exact absurd h (by simp [calculate_entry_info])
    | cons au arest =>
      obtain ⟨a, u⟩ := au
      rcases calcOne_cases e a u t ed with ⟨r, eA, hc, hne⟩ | ⟨out1, hc⟩
      · rw [calculate_entry_info, hc] at h ⊢
        exact absurd h (hne out)
      · rw [calculate_entry_info, hc] at h ⊢
        cases hrec : calculate_entry_info es arest t ed with
        | mk res esA =>
          cases res with
          | ok rest =>
            have hesA : esA = es.map (delIdx 17) := by
              have h2 := ih arest t ed rest (by rw [hrec])
              rw [hrec] at h2
              exact h2
            show delIdx 17 e :: esA = List.map (delIdx 17) (e :: es)
            rw [List.map_cons, hesA]
          | missingAdd => rw [hrec] at h; simp at h
          | missingEdit => rw [hrec] at h; simp at h
          | invalid => rw [hrec] at h; simp at h
          | crash => rw [hrec] at h; simp at h

theorem delIdx_length {l : List α} {n : ℕ} (hn : n < l.length) :
    (delIdx n l).length = l.length - 1 := by
  simp only [delIdx, List.length_append, List.length_take, List.length_drop]
  omega

theorem delIdx_get?_of_lt {l : List α} {n j : ℕ} (hj : j < n) (hn : n ≤ l.length) :
    (delIdx n l).get? j = l.get? j := by
  unfold delIdx
  rw [List.get?_append]
  · exact List.get?_take hj
  · rw [List.length_take]
    omega

theorem delIdx_get?_of_ge {l : List α} {n j : ℕ} (hj : n ≤ j) (hn : n ≤ l.length) :
    (delIdx n l).get? j = l.get? (j + 1) := by
  have hmin : (List.take n l).length = n := by
    rw [List.length_take]
    exact Nat.min_eq_left hn
  unfold delIdx
  rw [List.get?_append_right (by rw [hmin]; exact hj)]
  rw [List.get?_drop, hmin]
  congr 1
  omega

theorem calcOne_succ_eq (e : Row) (a u : String) (t ed : Bool) (v : ℚ) (amtCell : Cell)
    (ns : ℚ) (name : Cell) (scaled : List Cell)
    (hAmt : amountStep a t ed = .ok (v, amtCell))
    (hNs : numServings e v u = some ns)
    (hHd : e.head? = some name)
    (hLen : 17 < e.length)
    (hSc : scaleVals ns ((delIdx 17 e).drop 2) = some scaled) :
    calcOne e a u t ed
      = .succ (name :: .pair amtCell (.s u) :: renderPre ns :: scaled) (delIdx 17 e) := by
  simp only [calcOne, hAmt, hNs, hHd, if_pos hLen, hSc]

/-- **C1**: scaling the "cereal" catalog entry in strict mode with amount
`"1.5"`, unit `"Serving(s)"` yields exactly the specified row —
`num_servings = 1.5`, nutrients
`[300, 2.25, 0, 0, 0, 0, 0, 15, 72, 12, 3, 9, 0, 0, 10.5]` and cost
`0.38`; and in general, for every 19-field catalog row and every amount
accepted by the amount step whose unit resolves to `ns` servings and whose
value cells convert, the scaled row has an absent slot exactly where the
catalog slot is absent, and every present slot (nutrients at fields 2–16,
the derived unit cost at field 18) becomes
`round(catalog_value * num_servings, 2)`, rendered as an int exactly when
the rounded value is integral (`render`). -/
theorem claim_C1_scaling :
    calculate_entry_info [cerealRow] [("1.5", "Serving(s)")] false false
      = (.ok [cerealScaled], [delIdx 17 cerealRow])
    ∧ ∀ (e : Row) (a u : String) (t ed : Bool) (v ns : ℚ) (amtCell : Cell),
        amountStep a t ed = .ok (v, amtCell) →
        numServings e v u = some ns →
        e.length = 19 →
        (∀ c ∈ (delIdx 17 e).drop 2, (scaleCell ns c).isSome) →
        ∃ out, (calculate_entry_info [e] [(a, u)] t ed).1 = .ok [out]
          ∧ out.length = 19
          ∧ out.get? 2 = some (renderPre ns)
          ∧ (∀ j c, 2 ≤ j → j ≤ 16 → e.get? j = some c →
              (cellFalsy c = true → out.get? (j + 1) = some c)
              ∧ ∀ q, pyFloatCell c = some q → cellFalsy c = false →
                  out.get? (j + 1) = some (render (pyRound 2 (q * ns))))
          ∧ (∀ c, e.get? 18 = some c →
              (cellFalsy c = true → out.get? 18 = some c)
              ∧ ∀ q, pyFloatCell c = some q → cellFalsy c = false →
                  out.get? 18 = some (render (pyRound 2 (q * ns)))) := by
  constructor
  · decide
  · intro e a u t ed v ns amtCell hAmt hNs hLen hCells
    have hLen17 : 17 < e.length := by omega
    obtain ⟨name, es, rfl⟩ : ∃ name es, e = name :: es := by
      cases e with
      | nil => simp at hLen
      | cons x xs => exact ⟨x, xs, rfl⟩
    obtain ⟨scaled, hSc, hSclen, hScget⟩ :=
      mapOpt_some (scaleCell ns) ((delIdx 17 (name :: es)).drop 2) hCells
    have hcalc := calcOne_succ_eq (name :: es) a u t ed v amtCell ns name scaled
      hAmt hNs rfl hLen17 hSc
    refine ⟨name :: .pair amtCell (.s u) :: renderPre ns :: scaled, ?_, ?_, rfl, ?_, ?_⟩
    · rw [calculate_entry_info, hcalc]
      rfl
    · have hdlen : (delIdx 17 (name :: es)).length = 18 := by rw [delIdx_length hLen17, hLen]
      have : ((delIdx 17 (name :: es)).drop 2).length = 16 := by
        rw [List.length_drop, hdlen]
      simp [hSclen, this]
    · intro j c hj2 hj16 hc
      obtain ⟨k, rfl⟩ : ∃ k, j = k + 2 := ⟨j - 2, by omega⟩
      have hout : (name :: Cell.pair amtCell (Cell.s u) :: renderPre ns :: scaled : List Cell).get? (k + 2 + 1) = scaled.get? k := rfl
      rw [hout, hScget k, List.get?_drop, delIdx_get?_of_lt (by omega) (by omega)]
      rw [show 2 + k = k + 2 from by omega, hc]
      constructor
      · intro hfalsy
        simp [scaleCell, hfalsy]
      · intro q hq hfalsy
        simp [scaleCell, hfalsy, hq]
    · intro c hc
      have hout : (name :: Cell.pair amtCell (Cell.s u) :: renderPre ns :: scaled : List Cell).get? 18 = scaled.get? 15 := rfl
      rw [hout, hScget 15, List.get?_drop, delIdx_get?_of_ge (by omega) (by omega)]
      rw [show 2 + 15 + 1 = 18 from rfl, hc]
      constructor
      · intro hfalsy
        simp [scaleCell, hfalsy]
      · intro q hq hfalsy
        simp [scaleCell, hfalsy, hq]

/-- Witness for C1: the general slot property applied to the concrete
"cereal" row at amount `"2"`, unit `"Serving(s)"` (2 servings), all
hypotheses discharged by evaluation. -/
theorem claim_C1_scaling_witness :
    ∃ out, (calculate_entry_info [cerealRow] [("2", "Serving(s)")] false false).1
        = .ok [out]
      ∧ out.length = 19
      ∧ out.get? 2 = some (renderPre 2)
      ∧ (∀ j c, 2 ≤ j → j ≤ 16 → cerealRow.get? j = some c →
          (cellFalsy c = true → out.get? (j + 1) = some c)
          ∧ ∀ q, pyFloatCell c = some q → cellFalsy c = false →
              out.get? (j + 1) = some (render (pyRound 2 (q * 2))))
      ∧ (∀ c, cerealRow.get? 18 = some c →
          (cellFalsy c = true → out.get? 18 = some c)
          ∧ ∀ q, pyFloatCell c = some q → cellFalsy c = false →
              out.get? 18 = some (render (pyRound 2 (q * 2)))) :=
  claim_C1_scaling.2 cerealRow "2" "Serving(s)" false false 2 2 (.s "2")
    rfl (by decide) (by decide) (by decide)

theorem numServings_zero (e : Row) (u : String) (ns : ℚ)
    (h : numServings e 0 u = some ns) : ns = 0 := by
  by_cases hu : u = "Serving(s)"
  · rw [numServings, if_pos hu] at h
    exact (Option.some_injective ℚ h).symm
  · rw [numServings, if_neg hu] at h
    split at h
    · split at h
      · cases h
      · split at h
        · cases h
        · split at h
          · cases h
          · injection h with h'
            rw [zero_div] at h'
            exact h'.symm
    · cases h

/-- **C3**: for *every* catalog entry row, strict-mode scaling with a
blank amount fails with the missing-amount error (the `MissingAmount`
message, in its log-add or log-edit flavour) and leaves the row untouched;
the very same blank input in tally mode is coerced to zero servings and
succeeds, the scaled row carrying `num_servings = 0` (whenever the unit
resolves and the row's cells convert); and strict-mode scaling with the
non-numeric amounts `"."` or `"+"` fails with the invalid-amount error
(`InvalidAmount`). -/
theorem claim_C3_amount_modes :
    (∀ (e : Row) (u : String) (ed : Bool),
      calculate_entry_info [e] [("", u)] false ed
        = ((if ed then .missingEdit else .missingAdd), [e]))
    ∧ (∀ (e : Row) (u : String) (ed : Bool) (ns : ℚ),
        numServings e 0 u = some ns →
        e.length = 19 →
        (∀ c ∈ (delIdx 17 e).drop 2, (scaleCell 0 c).isSome) →
        ∃ out, (calculate_entry_info [e] [("", u)] true ed).1 = .ok [out]
          ∧ out.get? 2 = some (.i 0))
    ∧ (∀ (e : Row) (u : String) (ed : Bool),
        calculate_entry_info [e] [(".", u)] false ed = (.invalid, [e])
        ∧ calculate_entry_info [e] [("+", u)] false ed = (.invalid, [e])) := by
  refine ⟨?_, ?_, ?_⟩
  · intro e u ed
    cases ed <;> rfl
  · intro e u ed ns hNs hLen hCells
    have hns0 : ns = 0 := numServings_zero e u ns hNs
    subst hns0
    have hLen17 : 17 < e.length := by omega
    obtain ⟨name, es, rfl⟩ : ∃ name es, e = name :: es := by
      cases e with
      | nil => simp at hLen
      | cons x xs => exact ⟨x, xs, rfl⟩
    obtain ⟨scaled, hSc, _, _⟩ :=
      mapOpt_some (scaleCell 0) ((delIdx 17 (name :: es)).drop 2) hCells
    have hAmt : amountStep "" true ed = .ok (0, .i 0) := rfl
    have hcalc := calcOne_succ_eq (name :: es) "" u true ed 0 (.i 0) 0 name scaled
      hAmt hNs rfl hLen17 hSc
    refine ⟨name :: .pair (.i 0) (.s u) :: renderPre 0 :: scaled, ?_, ?_⟩
    · rw [calculate_entry_info, hcalc]
      rfl
    · show some (renderPre 0) = some (.i 0)
      decide
  · intro e u ed
    cases ed <;> exact ⟨rfl, rfl⟩

/-- Witness for C3: all three parts at the concrete "cereal" row with unit
`"Serving(s)"`, hypotheses discharged by evaluation. -/
theorem claim_C3_amount_modes_witness :
    calculate_entry_info [cerealRow] [("", "Serving(s)")] false false
      = ((if false then .missingEdit else .missingAdd), [cerealRow])
    ∧ (∃ out, (calculate_entry_info [cerealRow] [("", "Serving(s)")] true false).1
          = .ok [out]
        ∧ out.get? 2 = some (.i 0))
    ∧ (calculate_entry_info [cerealRow] [(".", "Serving(s)")] false false
          = (.invalid, [cerealRow])
        ∧ calculate_entry_info [cerealRow] [("+", "Serving(s)")] false false
          = (.invalid, [cerealRow])) :=
  ⟨claim_C3_amount_modes.1 cerealRow "Serving(s)" false,
   claim_C3_amount_modes.2.1 cerealRow "Serving(s)" false 0 (by decide) (by decide)
     (by decide),
   claim_C3_amount_modes.2.2 cerealRow "Serving(s)" false⟩

/-- **C10**: when the input unit is not `"Serving(s)"`, the scaler divides
the amount by the entry's serving size with no zero guard.  For every call
whose serving size is numerically nonzero (and whose cells convert) the
division-by-zero branch is unreachable and scaling returns a value; yet
`add_or_edit_entry` accepts `"0"` as a serving-size amount, producing a
well-formed catalog entry on which scaling raises `ZeroDivisionError`
(`CalcResult.crash`) instead of returning. -/
theorem claim_C10_zero_serving :
    (∀ (e : Row) (a u : String) (t ed : Bool) (v : ℚ) (amtCell : Cell)
        (m : List (String × String)) (ss : String) (sv : ℚ),
        amountStep a t ed = .ok (v, amtCell) →
        u ≠ "Serving(s)" →
        e.get? 1 = some (.dict m) →
        dictLookup m u = some ss →
        pyFloat ss = some sv →
        sv ≠ 0 →
        e.length = 19 →
        (∀ c ∈ (delIdx 17 e).drop 2, (scaleCell (v / sv) c).isSome) →
        ∃ out, (calculate_entry_info [e] [(a, u)] t ed).1 = .ok [out])
    ∧ add_or_edit_entry Option.none "zeroed" [("0", "g")] (List.replicate 15 "")
        "" "" Option.none = (.ok, some [zeroServRow])
    ∧ calculate_entry_info [zeroServRow] [("1", "g")] false false
        = (.crash, [zeroServRow]) := by
  refine ⟨?_, by decide, by decide⟩
  intro e a u t ed v amtCell m ss sv hAmt hu hget hlookup hss hsv hLen hCells
  have hNs : numServings e v u = some (v / sv) := by
    rw [numServings, if_neg hu, hget]
    simp only [hlookup, hss, if_neg hsv]
  have hLen17 : 17 < e.length := by omega
  obtain ⟨name, es, rfl⟩ : ∃ name es, e = name :: es := by
    cases e with
    | nil => simp at hLen
    | cons x xs => exact ⟨x, xs, rfl⟩
  obtain ⟨scaled, hSc, _, _⟩ :=
    mapOpt_some (scaleCell (v / sv)) ((delIdx 17 (name :: es)).drop 2) hCells
  have hcalc := calcOne_succ_eq (name :: es) a u t ed v amtCell (v / sv) name scaled
    hAmt hNs rfl hLen17 hSc
  refine ⟨name :: .pair amtCell (.s u) :: renderPre (v / sv) :: scaled, ?_⟩
  rw [calculate_entry_info, hcalc]
  rfl

/-- Witness for C10's universal part: the "cereal" entry scaled by 120
grams (serving size 60, hence 2 servings) returns a value. -/
theorem claim_C10_zero_serving_witness :
    ∃ out, (calculate_entry_info [cerealRow] [("120", "g")] false false).1
      = .ok [out] :=
  claim_C10_zero_serving.1 cerealRow "120" "g" false false 120 (.s "120")
    [("g", "60")] "60" 60 rfl (by decide) (by decide) (by decide) (by decide)
    (by decide) (by decide) (by decide)

/-- **C5**: adding rows to a date's ledger fails with the duplicate-name
error whenever one of the new names is already present among the ledger
file's entry names, and the ledger storage is left exactly as it was; on
a successful add, the date's storage location exists afterwards
(directories created if absent, `file` is `some`), holding the previous
contents (empty if the file was absent) with the newly scaled rows
appended. -/
theorem claim_C5_ledger_add :
    (∀ (st : LogFS) (fd : Option (List Row)) (names : List String)
        (amounts : List (String × String)) (rows : List Row) (fns : List Cell)
        (n : String),
        st.file = some rows →
        get_file_entry_names rows = some fns →
        n ∈ names →
        fns.contains (Cell.s n) = true →
        ∃ d, add_to_log st fd names amounts = (.duplicate d, st)
          ∧ d ∈ names ∧ fns.contains (Cell.s d) = true)
    ∧ (∀ (st : LogFS) (fd : Option (List Row)) (names : List String)
        (amounts : List (String × String)) (st' : LogFS),
        add_to_log st fd names amounts = (.ok, st') →
        ∃ es newRows, get_entries fd (.list names) true false = .entries es
          ∧ (calculate_entry_info es amounts false false).1 = .ok newRows
          ∧ st' = ⟨true, some (st.file.getD [] ++ newRows)⟩) := by
  constructor
  · intro st fd names amounts rows fns n hfile hfns hn hmem
    have hnames_ne : names.isEmpty = false := by
      cases names with
      | nil => cases hn
      | cons _ _ => rfl
    have hsome : (names.find? (fun n' => fns.contains (Cell.s n'))).isSome := by
      rw [List.find?_isSome]
      exact ⟨n, hn, hmem⟩
    obtain ⟨d, hd⟩ := Option.isSome_iff_exists.mp hsome
    have hp := List.find?_some hd
    refine ⟨d, ?_, List.mem_of_find?_eq_some hd, hp⟩
    have hscrut : Option.map (firstDuplicate names) (get_file_entry_names rows)
        = some (some d) := by
      rw [hfns]
      exact congrArg some (by unfold firstDuplicate; exact hd)
    unfold add_to_log
    simp only [hnames_ne, Bool.false_eq_true, if_false, hfile, hscrut]
  · intro st fd names amounts st' h
    unfold add_to_log at h
    by_cases hne : names.isEmpty
    · simp [hne] at h
    · simp only [hne, Bool.false_eq_true, if_false] at h
      split at h
      · simp at h
      · simp at h
      · split at h
        · simp at h
        · split at h
          · simp at h
          · split at h
            · simp at h
            · split at h <;> simp at h
        · rename_i es hes
          split at h
          · simp at h
          · simp at h
          · simp at h
          · simp at h
          · rename_i newRows hcalc
            refine ⟨es, newRows, hes, hcalc, ?_⟩
            rw [Prod.mk.injEq] at h
            exact h.2.symm

/-- Witness for C5: a duplicate "cereal" add is rejected with the ledger
unchanged, and a fresh add to a missing file creates storage holding
exactly the scaled row. -/
theorem claim_C5_ledger_add_witness :
    (∃ d, add_to_log ⟨true, some [[Cell.s "cereal"]]⟩ (some [cerealRow]) ["cereal"]
        [("1", "Serving(s)")] = (.duplicate d, ⟨true, some [[Cell.s "cereal"]]⟩)
      ∧ d ∈ ["cereal"] ∧ [Cell.s "cereal"].contains (Cell.s d) = true)
    ∧ (∃ es newRows,
        get_entries (some [cerealRow]) (.list ["cereal"]) true false = .entries es
        ∧ (calculate_entry_info es [("1.5", "Serving(s)")] false false).1 = .ok newRows
        ∧ (⟨true, some [cerealScaled]⟩ : LogFS)
            = ⟨true, some ((⟨false, Option.none⟩ : LogFS).file.getD [] ++ newRows)⟩) :=
  ⟨claim_C5_ledger_add.1 ⟨true, some [[Cell.s "cereal"]]⟩ (some [cerealRow]) ["cereal"]
      [("1", "Serving(s)")] [[Cell.s "cereal"]] [Cell.s "cereal"] "cereal"
      rfl (by decide) (by decide) (by decide),
   claim_C5_ledger_add.2 ⟨false, Option.none⟩ (some [cerealRow]) ["cereal"]
      [("1.5", "Serving(s)")] ⟨true, some [cerealScaled]⟩ (by decide)⟩

/-- **C8** (failing input): the catalog holds the rows "cereal" and
"real"; editing "cereal" (keeping its name, `previous_name = "cereal"`)
succeeds, but because `add_or_edit_entry` passes the bare string
`"cereal"` as `entry_names` to `get_entries(match=False)`, the membership
test `row[0] in entry_names` becomes a *substring* test and the unrelated
row "real" is silently dropped: the resulting catalog is
`[editedCerealRow]`, while removing only the `previous_name` row (the
claim's and the docstring's reading, `upsertSpec`) keeps "real". -/
theorem claim_C8_substring_drop :
    add_or_edit_entry (some [cerealRow, realRow]) "cereal" [("60", "g")]
        (List.replicate 15 "") "" "" (some "cereal")
      = (.ok, some [editedCerealRow])
    ∧ upsertSpec [cerealRow, realRow] editedCerealRow "cereal"
      = [editedCerealRow, realRow]
    ∧ ([editedCerealRow] : List Row) ≠ [editedCerealRow, realRow]
    ∧ isSubstr "real" "cereal" = true := by
  decide

theorem charListLt_irrefl : ∀ l : List Char, charListLt l l = false := by
  intro l
  induction l with
  | nil => rfl
  | cons a as ih => simp [charListLt, lt_self_iff_false, ih]

theorem charListLt_asymm : ∀ l m : List Char,
    charListLt l m = true → charListLt m l = false := by
  intro l
  induction l with
  | nil =>
    intro m h
    cases m with
    | nil => cases h
    | cons b bs => rfl
  | cons a as ih =>
    intro m h
    cases m with
    | nil => cases h
    | cons b bs =>
      rcases lt_trichotomy a b with hab | hab | hab
      · simp [charListLt, asymm hab, hab]
      · subst hab
        simp only [charListLt, lt_self_iff_false, if_false] at h ⊢
        exact ih bs h
      · simp [charListLt, asymm hab, hab] at h

theorem charListLt_trans : ∀ l m k : List Char,
    charListLt l m = true → charListLt m k = true → charListLt l k = true := by
  intro l
  induction l with
  | nil =>
    intro m k h1 h2
    cases m with
    | nil => cases h1
    | cons b bs =>
      cases k with
      | nil => cases h2
      | cons c cs => rfl
  | cons a as ih =>
    intro m k h1 h2
    cases m with
    | nil => cases h1
    | cons b bs =>
      cases k with
      | nil => cases h2
      | cons c cs =>
        rcases lt_trichotomy a b with hab | hab | hab
        · rcases lt_trichotomy b c with hbc | hbc | hbc
          · simp [charListLt, lt_trans hab hbc]
          · subst hbc
            simp [charListLt, hab]
          · simp [charListLt, asymm hbc, hbc] at h2
        · subst hab
          simp only [charListLt, lt_self_iff_false, if_false] at h1
          rcases lt_trichotomy a c with hac | hac | hac
          · simp [charListLt, hac]
          · subst hac
            simp only [charListLt, lt_self_iff_false, if_false] at h2 ⊢
            exact ih bs cs h1 h2
          · simp [charListLt, asymm hac, hac] at h2
        · simp [charListLt, asymm hab, hab] at h1

theorem charListLt_total : ∀ l m : List Char,
    charListLt l m = false → charListLt m l = false → l = m := by
  intro l
  induction l with
  | nil =>
    intro m h1 _
    cases m with
    | nil => rfl
    | cons b bs => cases h1
  | cons a as ih =>
    intro m h1 h2
    cases m with
    | nil => cases h2
    | cons b bs =>
      rcases lt_trichotomy a b with hab | hab | hab
      · simp [charListLt, hab] at h1
      · subst hab
        simp only [charListLt, lt_self_iff_false, if_false] at h1 h2
        rw [ih bs h1 h2]
      · simp [charListLt, hab] at h2

theorem pyStrLt_irrefl (s : String) : pyStrLt s s = false :=
  charListLt_irrefl _

theorem pyStrLt_asymm {a b : String} (h : pyStrLt a b = true) : pyStrLt b a = false :=
  charListLt_asymm _ _ h

theorem pyStrLt_trans {a b c : String} (h1 : pyStrLt a b = true)
    (h2 : pyStrLt b c = true) : pyStrLt a c = true :=
  charListLt_trans _ _ _ h1 h2

theorem pyStrLt_total {a b : String} (h1 : pyStrLt a b = false)
    (h2 : pyStrLt b a = false) : a = b := by
  cases a with
  | mk la =>
    cases b with
    | mk lb =>
      rw [charListLt_total la lb h1 h2]

theorem nextPath_eq_find (l : List String) (q : String)
    (hs : l.Pairwise (fun a b => pyStrLt a b = true)) :
    nextPath l q = l.find? (fun p => pyStrLt q p) := by
  induction l with
  | nil =>
    show [q].get? (List.indexOf q [q] + 1) = none
    rw [List.indexOf_cons_self]
    rfl
  | cons h t ih =>
    rw [List.pairwise_cons] at hs
    obtain ⟨hh, hst⟩ := hs
    by_cases hqh : q = h
    · subst hqh
      have hcont : (q :: t).contains q = true := by
        rw [List.elem_iff]
        exact List.mem_cons_self q t
      have hstep : nextPath (q :: t) q = t.get? 0 := by
        simp only [nextPath]
        rw [if_pos hcont, List.indexOf_cons_self]
        rfl
      rw [hstep, List.find?_cons_of_neg _ (by simp [pyStrLt_irrefl])]
      cases t with
      | nil => rfl
      | cons x ts =>
        rw [List.find?_cons_of_pos _ (hh x (List.mem_cons_self x ts))]
        rfl
    · cases hlt : pyStrLt q h with
      | true =>
        have hqnotmem : q ∉ h :: t := by
          intro hq
          rcases List.mem_cons.mp hq with hq | hq
          · exact hqh hq
          · rw [pyStrLt_asymm (hh q hq)] at hlt
            cases hlt
        have hcont : (h :: t).contains q = false := by
          rw [Bool.eq_false_iff]
          intro hcq
          exact hqnotmem (List.elem_iff.mp hcq)
        have hins : insort (h :: t) q = q :: h :: t := by
          show (if pyStrLt q h = true then q :: h :: t else h :: insort t q) = q :: h :: t
          rw [if_pos hlt]
        simp only [nextPath]
        rw [if_neg (by rw [hcont]; simp), hins, List.indexOf_cons_self,
          List.find?_cons_of_pos _ hlt]
        rfl
      | false =>
        have hhq : pyStrLt h q = true := by
          cases hhq : pyStrLt h q with
          | true => rfl
          | false => exact absurd (pyStrLt_total hlt hhq) hqh
        have hcont : (h :: t).contains q = t.contains q := by
          show (q == h || t.elem q) = t.elem q
          rw [beq_eq_false_iff_ne.mpr hqh, Bool.false_or]
        have hX : (if (h :: t).contains q = true then h :: t else insort (h :: t) q)
            = h :: (if t.contains q = true then t else insort t q) := by
          rw [hcont]
          cases hct : t.contains q with
          | true => rfl
          | false =>
            have hins : insort (h :: t) q = h :: insort t q := by
              show (if pyStrLt q h = true then q :: h :: t else h :: insort t q) = _
              rw [if_neg (by simp [hlt])]
            simp [Bool.false_eq_true, hins]
        have hmain : nextPath (h :: t) q = nextPath t q := by
          simp only [nextPath]
          rw [hX, List.indexOf_cons_ne _ (fun he => hqh he.symm)]
          rfl
        rw [hmain, ih hst, List.find?_cons_of_neg _ (by simp [hlt])]

theorem insortIdx_zero_iff (t : List String) (q : String)
    (hst : t.Pairwise (fun a b => pyStrLt a b = true)) :
    ((if t.contains q = true then t else insort t q).indexOf q = 0)
      ↔ t.filter (fun p => pyStrLt p q) = [] := by
  cases hct : t.contains q with
  | true =>
    show t.indexOf q = 0 ↔ _
    have hqmem : q ∈ t := List.elem_iff.mp hct
    cases t with
    | nil => cases hqmem
    | cons y t' =>
      rw [List.pairwise_cons] at hst
      obtain ⟨hy, hst'⟩ := hst
      by_cases hqy : q = y
      · subst hqy
        constructor
        · intro _
          rw [List.filter_cons_of_neg (by simp [pyStrLt_irrefl])]
          rw [List.filter_eq_nil_iff]
          intro x hx
          simp [pyStrLt_asymm (hy x hx)]
        · intro _
          exact List.indexOf_cons_self q t'
      · have hqt' : q ∈ t' := by
          rcases List.mem_cons.mp hqmem with he | he
          · exact absurd he hqy
          · exact he
        constructor
        · intro h0
          rw [List.indexOf_cons_ne _ (fun he => hqy he.symm)] at h0
          cases h0
        · intro hfil
          exfalso
          have hyq : pyStrLt y q = true := hy q hqt'
          have hymem : y ∈ List.filter (fun p => pyStrLt p q) (y :: t') := by
            rw [List.mem_filter]
            exact ⟨List.mem_cons_self y t', hyq⟩
          rw [hfil] at hymem
          cases hymem
  | false =>
    have hqnot : q ∉ t := by
      intro hq
      have h1 : t.contains q = true := List.elem_iff.mpr hq
      rw [h1] at hct
      cases hct
    show (insort t q).indexOf q = 0 ↔ _
    cases t with
    | nil =>
      constructor
      · intro _
        rfl
      · intro _
        exact List.indexOf_cons_self q []
    | cons y t' =>
      rw [List.pairwise_cons] at hst
      obtain ⟨hy, hst'⟩ := hst
      have hqy : q ≠ y := fun he => hqnot (he ▸ List.mem_cons_self y t')
      cases hqy2 : pyStrLt q y with
      | true =>
        have hins : insort (y :: t') q = q :: y :: t' := by
          show (if pyStrLt q y = true then q :: y :: t' else y :: insort t' q) = _
          rw [if_pos hqy2]
        constructor
        · intro _
          rw [List.filter_eq_nil_iff]
          intro x hx
          rcases List.mem_cons.mp hx with he | he
          · subst he
            simp [pyStrLt_asymm hqy2]
          · simp [pyStrLt_asymm (pyStrLt_trans hqy2 (hy x he))]
        · intro _
          rw [hins]
          exact List.indexOf_cons_self q (y :: t')
      | false =>
        have hyq : pyStrLt y q = true := by
          cases h2 : pyStrLt y q with
          | true => rfl
          | false => exact absurd (pyStrLt_total hqy2 h2) hqy
        have hins : insort (y :: t') q = y :: insort t' q := by
          show (if pyStrLt q y = true then q :: y :: t' else y :: insort t' q) = _
          rw [if_neg (by simp [hqy2])]
        constructor
        · intro h0
          rw [hins, List.indexOf_cons_ne _ (fun he => hqy he.symm)] at h0
          cases h0
        · intro hfil
          exfalso
          have hymem : y ∈ List.filter (fun p => pyStrLt p q) (y :: t') := by
            rw [List.mem_filter]
            exact ⟨List.mem_cons_self y t', hyq⟩
          rw [hfil] at hymem
          cases hymem

theorem prevPath_eq_getLast (l : List String) (q : String)
    (hs : l.Pairwise (fun a b => pyStrLt a b = true)) :
    prevPath l q = (l.filter (fun p => pyStrLt p q)).getLast? := by
  induction l with
  | nil =>
    show (if List.indexOf q [q] = 0 then Option.none
          else [q].get? (List.indexOf q [q] - 1)) = _
    rw [List.indexOf_cons_self]
    rfl
  | cons h t ih =>
    rw [List.pairwise_cons] at hs
    obtain ⟨hh, hst⟩ := hs
    by_cases hqh : q = h
    · subst hqh
      have hcont : (q :: t).contains q = true := List.elem_iff.mpr (List.mem_cons_self q t)
      have hstep : prevPath (q :: t) q = Option.none := by
        simp only [prevPath]
        rw [if_pos hcont, List.indexOf_cons_self]
        rfl
      rw [hstep, List.filter_cons_of_neg (by simp [pyStrLt_irrefl])]
      rw [show List.filter (fun p => pyStrLt p q) t = [] from
        List.filter_eq_nil_iff.mpr (fun x hx => by simp [pyStrLt_asymm (hh x hx)])]
      rfl
    · cases hlt : pyStrLt q h with
      | true =>
        have hcont : (h :: t).contains q = false := by
          rw [Bool.eq_false_iff]
          intro hcq
          rcases List.mem_cons.mp (List.elem_iff.mp hcq) with he | he
          · exact hqh he
          · rw [pyStrLt_asymm (hh q he)] at hlt
            cases hlt
        have hins : insort (h :: t) q = q :: h :: t := by
          show (if pyStrLt q h = true then q :: h :: t else h :: insort t q) = _
          rw [if_pos hlt]
        have hl' : (if (h :: t).contains q = true then h :: t else insort (h :: t) q)
            = q :: h :: t := by
          rw [hcont, if_neg (by simp), hins]
        have hstep : prevPath (h :: t) q = Option.none := by
          simp only [prevPath]
          rw [hl', List.indexOf_cons_self]
          rfl
        rw [hstep]
        rw [show List.filter (fun p => pyStrLt p q) (h :: t) = [] from
          List.filter_eq_nil_iff.mpr ?_]
        · rfl
        · intro x hx
          rcases List.mem_cons.mp hx with he | he
          · subst he
            simp [pyStrLt_asymm hlt]
          · simp [pyStrLt_asymm (pyStrLt_trans hlt (hh x he))]
      | false =>
        have hhq : pyStrLt h q = true := by
          cases hhq : pyStrLt h q with
          | true => rfl
          | false => exact absurd (pyStrLt_total hlt hhq) hqh
        have hcont : (h :: t).contains q = t.contains q := by
          show (q == h || t.elem q) = t.elem q
          rw [beq_eq_false_iff_ne.mpr hqh, Bool.false_or]
        have hX : (if (h :: t).contains q = true then h :: t else insort (h :: t) q)
            = h :: (if t.contains q = true then t else insort t q) := by
          rw [hcont]
          cases hct : t.contains q with
          | true => rfl
          | false =>
            have hins : insort (h :: t) q = h :: insort t q := by
              show (if pyStrLt q h = true then q :: h :: t else h :: insort t q) = _
              rw [if_neg (by simp [hlt])]
            simp [Bool.false_eq_true, hins]
        have hidx : (h :: (if t.contains q = true then t else insort t q)).indexOf q
            = (if t.contains q = true then t else insort t q).indexOf q + 1 :=
          List.indexOf_cons_ne _ (fun he => hqh he.symm)
        have hfilter : List.filter (fun p => pyStrLt p q) (h :: t)
            = h :: List.filter (fun p => pyStrLt p q) t :=
          List.filter_cons_of_pos hhq
        by_cases h0 : (if t.contains q = true then t else insort t q).indexOf q = 0
        · have hfil : t.filter (fun p => pyStrLt p q) = [] :=
            (insortIdx_zero_iff t q hst).mp h0
          have hstep : prevPath (h :: t) q = some h := by
            simp only [prevPath]
            rw [hX, hidx, h0]
            rfl
          rw [hstep, hfilter, hfil]
          rfl
        · have hfil : t.filter (fun p => pyStrLt p q) ≠ [] :=
            fun hf => h0 ((insortIdx_zero_iff t q hst).mpr hf)
          obtain ⟨k, hk⟩ : ∃ k, (if t.contains q = true then t else insort t q).indexOf q
              = k + 1 :=
            ⟨(if t.contains q = true then t else insort t q).indexOf q - 1, by omega⟩
          have hstep : prevPath (h :: t) q
              = (if t.contains q = true then t else insort t q).get? k := by
            simp only [prevPath]
            rw [hX, hidx, hk]
            rfl
          have hprev : prevPath t q
              = (if t.contains q = true then t else insort t q).get? k := by
            simp only [prevPath]
            rw [hk]
            rfl
          rw [hstep, ← hprev, ih hst, hfilter]
          cases hft : List.filter (fun p => pyStrLt p q) t with
          | nil => exact absurd hft hfil
          | cons f0 ft' => rw [List.getLast?_cons_cons]

/-- **C6**: with ledgers existing only for 2020-06-30 and 2020-07-02,
`goto_next_log` from 2020-07-01 (no ledger) navigates to 2020-07-02, and
from 2020-07-02 it reports the no-next-file message (`NavResult.noFile`),
not an exception; in general, on a sorted list of existing ledger paths
the navigation inserts the queried date's path into sorted position and
returns the neighbouring existing path in the requested direction — the
least existing path greater than the query for `next`, the greatest one
smaller for `previous`. -/
theorem claim_C6_adjacent :
    goto_next_log [log_file_path 2020 6 30, log_file_path 2020 7 2]
        (log_file_path 2020 7 1) = .date (2020, 7, 2)
    ∧ goto_next_log [log_file_path 2020 6 30, log_file_path 2020 7 2]
        (log_file_path 2020 7 2) = .noFile
    ∧ ∀ (l : List String) (q : String),
        l.Pairwise (fun a b => pyStrLt a b = true) →
        nextPath l q = l.find? (fun p => pyStrLt q p)
        ∧ prevPath l q = (l.filter (fun p => pyStrLt p q)).getLast? := by
  refine ⟨by decide, by decide, ?_⟩
  intro l q hs
  exact ⟨nextPath_eq_find l q hs, prevPath_eq_getLast l q hs⟩

/-- Witness for C6's general part: the two existing ledger paths of the
concrete scenario are sorted, and the navigation from 2020-07-01 picks the
first greater path and the last smaller path. -/
theorem claim_C6_adjacent_witness :
    nextPath [log_file_path 2020 6 30, log_file_path 2020 7 2]
        (log_file_path 2020 7 1)
      = [log_file_path 2020 6 30, log_file_path 2020 7 2].find?
          (fun p => pyStrLt (log_file_path 2020 7 1) p)
    ∧ prevPath [log_file_path 2020 6 30, log_file_path 2020 7 2]
        (log_file_path 2020 7 1)
      = ([log_file_path 2020 6 30, log_file_path 2020 7 2].filter
          (fun p => pyStrLt p (log_file_path 2020 7 1))).getLast? :=
  claim_C6_adjacent.2.2 [log_file_path 2020 6 30, log_file_path 2020 7 2]
    (log_file_path 2020 7 1) (by decide)

/-- Witness for C2's amended theorem: the sample call succeeds, so the
caller's list is the cereal row with field 17 deleted. -/
theorem claim_C2_mutates_witness :
    (calculate_entry_info [cerealRow] [("1.5", "Serving(s)")] false false).2
      = [cerealRow].map (delIdx 17) :=
  claim_C2_mutates [cerealRow] [("1.5", "Serving(s)")] false false [cerealScaled]
    (by decide)

/-- Witness for C4's amended theorem: the specification's own example,
rows `[1,2,3]`, `[4,5,6]`, `[7,8,9]`. -/
theorem claim_C4_sum_witness :
    ∃ ts, sum_shared_values [[.s "1", .s "2", .s "3"], [.s "4", .s "5", .s "6"],
        [.s "7", .s "8", .s "9"]] = some ts ∧ ts.length = 3
      ∧ ∀ i, i < 3 → ts.get? i
          = some (renderPre (colSumSpec [[.s "1", .s "2", .s "3"],
              [.s "4", .s "5", .s "6"], [.s "7", .s "8", .s "9"]] i)) :=
  claim_C4_sum.2 [[.s "1", .s "2", .s "3"], [.s "4", .s "5", .s "6"],
      [.s "7", .s "8", .s "9"]] 3 (by decide) (by decide) (by decide)
